import Mathlib

/-!
Verification of the PyNS GUI app (a Streamlit dashboard over the PyNS survey
engine).  The definitions below are a shallow embedding of the presentation
and reshaping logic of `PyNS_GUI_app.py`: pandas DataFrames become explicit
lists of rows, the session state becomes an explicit state-transition
function, and the external survey-engine calls (`PyNS.Log`, `log.as_interval`,
`log._master`) become oracles carried by the inputs (`Except`-valued fields),
since their behaviour is out of scope.
-/

namespace PyNSApp

/-- A scalar cell value of a DataFrame: either a string label or a rational
number (modelling Python floats exactly). -/
inductive Val where
  | str : String → Val
  | num : ℚ → Val
deriving DecidableEq, Repr

/-- The column header of a DataFrame: a flat (single-level) header, or a
two-level `MultiIndex` header whose second level may be `None`. -/
inductive Cols where
  | flat : List String → Cols
  | multi : List (String × Option String) → Cols
deriving DecidableEq, Repr

/-- A pandas DataFrame: a (single-level) row index with an optional name,
a column header, and the rows of cell values. -/
structure PDF where
  indexName : Option String
  index : List Val
  cols : Cols
  rows : List (List Val)
deriving DecidableEq, Repr

/-- Python's `x or d` for an optional string `x`: `None` and the empty
string are falsy and yield the default. -/
def pyOr (o : Option String) (d : String) : String :=
  match o with
  | none => d
  | some s => if s = "" then d else s

/-- Python's `str` applied to an optional string: `str(None) = "None"`. -/
def pyStr (o : Option String) : String :=
  match o with
  | some s => s
  | none => "None"

/-- `df.index.name or "index"` (also `df.index.names[-1] or "index"` for a
single-level index): the column name produced by `reset_index`. -/
def effIdx (df : PDF) : String := pyOr df.indexName "index"

/-- The `RangeIndex` 0,1,…,n-1 that pandas attaches after `reset_index()` or
`concat(..., ignore_index=True)`. -/
def rangeIdx (n : Nat) : List Val := (List.range n).map (fun (k : ℕ) => Val.num (k : ℚ))

/-- Number of columns of a DataFrame (`df.shape[1]`). -/
def PDF.ncols (df : PDF) : Nat :=
  match df.cols with
  | .flat cs => cs.length
  | .multi cs => cs.length

/-! ### Spectra reshaper (`spectra_to_rows`, lines 107-130) -/

/-- The inner (band) labels of a two-level header:
`[band for _, band in df.columns]`. -/
def rawBands (cs : List (String × Option String)) : List (Option String) :=
  cs.map Prod.snd

/-- `set_len = len({band for _, band in df.columns})`: the number of distinct
inner labels, i.e. the fixed block width. -/
def bandWidth (cs : List (String × Option String)) : Nat :=
  (rawBands cs).dedup.length

/-- `bands = [band for _, band in df.columns][:set_len]` rendered as strings
(`str(b)`): the first `set_len` inner labels. -/
def bandLabels (cs : List (String × Option String)) : List String :=
  ((rawBands cs).take (bandWidth cs)).map pyStr

/-- Columns of one position block after
`sub.columns = bands; sub.reset_index().rename({idx: "Period"})`:
the index column first, then the band labels, with every label equal to the
index name renamed to `"Period"`. -/
def miCols2 (df : PDF) (cs : List (String × Option String)) : List String :=
  (effIdx df :: bandLabels cs).map (fun c => if c = effIdx df then "Period" else c)

/-- Column header of every per-position block (and hence of the concatenated
result): `"Position"` is inserted at the front unless already present. -/
def blockCols (df : PDF) (cs : List (String × Option String)) : List String :=
  if "Position" ∈ miCols2 df cs then miCols2 df cs else "Position" :: miCols2 df cs

/-- Rows of the block for position number `i` named `pos`:
`df.iloc[:, i*set_len:(i+1)*set_len]` with the row index moved in front
(`reset_index`) and, unless a `"Position"` column already exists, the
position name inserted at the front of every row. -/
def blockRows (df : PDF) (cs : List (String × Option String)) (i : Nat) (pos : String) :
    List (List Val) :=
  let B := bandWidth cs
  let base := List.zipWith (fun iv r => iv :: ((r.drop (i * B)).take B)) df.index df.rows
  if "Position" ∈ miCols2 df cs then base else base.map (fun r => Val.str pos :: r)

/-- The `for i, pos in enumerate(pos_names)` loop of `spectra_to_rows`:
collect one block per position, breaking as soon as the next block would
exceed the table width (`if end > df.shape[1]: break`). -/
def miLoop (df : PDF) (cs : List (String × Option String)) :
    Nat → List String → List (List (List Val))
  | _, [] => []
  | i, pos :: rest =>
    if (i + 1) * bandWidth cs > cs.length then []
    else blockRows df cs i pos :: miLoop df cs (i + 1) rest

/-- Result of `spectra_to_rows`: `absent` models the `None` return for a
`None` input, `ok` a returned DataFrame, `raises` an uncaught exception
(`pd.concat([])` raises `ValueError`). -/
inductive SpectraResult where
  | absent : SpectraResult
  | ok : PDF → SpectraResult
  | raises : SpectraResult
deriving DecidableEq, Repr

/-- The flat-header branch of `spectra_to_rows`:
`tidy = df.reset_index().rename(columns={df.index.name or "index": "Period"})`
followed by inserting a `"Position"` column (first known position name, or
`"Pos1"`) when absent. -/
def flatTidy (df : PDF) (cs : List String) (ps : List String) : PDF :=
  let e := effIdx df
  let cols1 := (e :: cs).map (fun c => if c = e then "Period" else c)
  let rows1 := List.zipWith (fun iv r => iv :: r) df.index df.rows
  if "Position" ∈ cols1 then
    { indexName := none, index := rangeIdx rows1.length, cols := .flat cols1, rows := rows1 }
  else
    { indexName := none, index := rangeIdx rows1.length,
      cols := .flat ("Position" :: cols1),
      rows := rows1.map (fun r => Val.str (ps.headD "Pos1") :: r) }

/-- `spectra_to_rows(df, pos_names)` (lines 107-130): `None` input passes
through; a flat-header table is tidied in place; a two-level table is cut
into per-position blocks and concatenated (`pd.concat` raising on an empty
block list). -/
def spectra_to_rows (odf : Option PDF) (ps : List String) : SpectraResult :=
  match odf with
  | none => .absent
  | some df =>
    match df.cols with
    | .flat cs => .ok (flatTidy df cs ps)
    | .multi cs =>
      let blocks := miLoop df cs 0 ps
      if blocks = [] then .raises
      else
        let rows := blocks.flatten
        .ok { indexName := none, index := rangeIdx rows.length,
              cols := .flat (blockCols df cs), rows := rows }

/-! ### Spec-side description of the reshape (claim C1's words) -/

/-- Follows the claim's words (C1): the block of position number `i` named
`pos` is that position's contiguous `B`-column slice, each row tagged with
the position's name and its index label moved into the `Period` cell. -/
def specBlock (df : PDF) (B : Nat) (i : Nat) (pos : String) : List (List Val) :=
  List.zipWith (fun iv r => Val.str pos :: iv :: ((r.drop (i * B)).take B))
    df.index df.rows

/-- Follows the claim's words (C1): concatenation of the blocks of the first
`K` positions, in the order of the position list. -/
def specRows (df : PDF) (B : Nat) (ps : List String) (K : Nat) : List (List Val) :=
  (((ps.take K).enum).map (fun jp => specBlock df B jp.1 jp.2)).flatten

/-! ### ViewState (session state, lines 24-27 and 53-65) -/

/-- The session-scoped UI state: `st.session_state["apply_agg"]` and
`st.session_state["period_last"]`. -/
structure ViewState where
  apply_agg : Bool
  period_last : String
deriving DecidableEq, Repr

/-- `suffix_map = {"second(s)": "s", "minute(s)": "min", "hour(s)": "h"}`
with `.get(_, '')`. -/
def suffixMap (s : String) : String :=
  if s = "second(s)" then "s"
  else if s = "minute(s)" then "min"
  else if s = "hour(s)" then "h"
  else ""

/-- `period = f"{int_period}{suffix_map.get(period_select, '')}"`. -/
def buildPeriod (v : Int) (unit : String) : String := toString v ++ suffixMap unit

/-- One render cycle's update of the session state (lines 57-65): if the
newly built period string differs from the stored one, reset `apply_agg`
and store the new string; then the apply button, if pressed, sets
`apply_agg`. -/
def stepView (s : ViewState) (v : Int) (unit : String) (applyBtn : Bool) : ViewState :=
  let period := buildPeriod v unit
  let s1 := if s.period_last ≠ period then { apply_agg := false, period_last := period } else s
  if applyBtn then { s1 with apply_agg := true } else s1

/-! ### Log ingestion (lines 68-80) -/

/-- A parsed `PyNS.Log`.  The engine is external, so its behaviour on this
log is an oracle: `master` is the outcome of reading `log._master`, and
`asInterval t` the outcome of `log.as_interval(t=t)`. -/
structure Log where
  master : Except String PDF
  asInterval : String → Except String PDF

/-- An uploaded CSV file: its display name and the outcome of
`PyNS.Log(path)` on its bytes (an oracle for the external parser). -/
structure UploadFile where
  name : String
  parse : Except String Log

/-- Temp-file events: creation of the uniquely named temporary file number
`n` (`tempfile.NamedTemporaryFile`) and its removal (`os.unlink`). -/
inductive Ev where
  | create : Nat → Ev
  | unlink : Nat → Ev
deriving DecidableEq, Repr

/-- State threaded through the ingestion loop: the `logs` dict (insertion
ordered), the error messages shown so far, the temp-file events, and the
next fresh temp-file number. -/
structure IngestSt where
  logs : List (String × Log)
  errors : List String
  events : List Ev
  nextTmp : Nat

/-- Python dict assignment `d[k] = v`: overwrite in place if the key exists,
else append (insertion order preserved). -/
def dictInsert (d : List (String × Log)) (k : String) (v : Log) : List (String × Log) :=
  if d.any (fun p => p.1 == k) then d.map (fun p => if p.1 == k then (k, v) else p)
  else d ++ [(k, v)]

/-- Python `d.get(k)`. -/
def dictGet (d : List (String × Log)) (k : String) : Option Log :=
  match d.find? (fun p => p.1 == k) with
  | some p => some p.2
  | none => none

/-- `st.error(f"Failed to load {name} into PyNS: {err}")`. -/
def loadErrMsg (name err : String) : String :=
  "Failed to load `" ++ name ++ "` into PyNS: " ++ err

/-- Processing of one uploaded file (lines 71-80): write a fresh temp file,
`try` the constructor (recording the log or the error), and `finally`
unlink the temp file. -/
def processFile (st : IngestSt) (f : UploadFile) : IngestSt :=
  let n := st.nextTmp
  let st1 : IngestSt := { st with events := st.events ++ [Ev.create n], nextTmp := n + 1 }
  let st2 : IngestSt :=
    match f.parse with
    | .ok lg => { st1 with logs := dictInsert st1.logs f.name lg }
    | .error e => { st1 with errors := st1.errors ++ [loadErrMsg f.name e] }
  { st2 with events := st2.events ++ [Ev.unlink n] }

/-- The whole ingestion loop over the uploaded files. -/
def ingest (files : List UploadFile) : IngestSt :=
  files.foldl processFile { logs := [], errors := [], events := [], nextTmp := 0 }

/-- `pos_list = list(logs.keys())` (line 104). -/
def posList (files : List UploadFile) : List String :=
  (ingest files).logs.map Prod.fst

/-- `ui_tabs = st.tabs(["Summary"] + pos_list)` (line 133): the tab labels. -/
def uiTabs (files : List UploadFile) : List String := "Summary" :: posList files

/-! ### Per-position view (lines 190-328) -/

/-- Flattening of one two-level column label for charting (lines 222-226):
join the two levels with a space (`str(None)` of a missing second level is
the empty string) and strip surrounding whitespace. -/
def flattenLabel (a : String) (b : Option String) : String :=
  (a ++ " " ++ (match b with | some s => s | none => "")).trim

/-- `df_plot.columns`: the chart-input column labels — flattened when the
display table has two-level columns, unchanged otherwise. -/
def plotCols (d : PDF) : List String :=
  match d.cols with
  | .flat cs => cs
  | .multi cs => cs.map (fun p => flattenLabel p.1 p.2)

/-- `required_cols = {"Leq A", "L90 A", "Lmax A"}` (line 230). -/
def requiredCols : List String := ["Leq A", "L90 A", "Lmax A"]

/-- `required_cols.issubset(set(df_plot.columns))`. -/
def hasRequired (d : PDF) : Bool :=
  requiredCols.all (fun c => decide (c ∈ plotCols d))

/-- `df.reset_index()`: the index becomes the first column, named by the
index name (padded with an empty second level under a two-level header),
and the new index is a nameless range. -/
def resetIndexPDF (d : PDF) : PDF :=
  let e := effIdx d
  let rows1 := List.zipWith (fun iv r => iv :: r) d.index d.rows
  match d.cols with
  | .flat cs =>
    { indexName := none, index := rangeIdx rows1.length, cols := .flat (e :: cs), rows := rows1 }
  | .multi cs =>
    { indexName := none, index := rangeIdx rows1.length, cols := .multi ((e, some "") :: cs),
      rows := rows1 }

/-- `df.rename(columns={src: dst})`: renames every matching label, on every
level of a two-level header. -/
def renamePDF (d : PDF) (src dst : String) : PDF :=
  let f := fun c => if c = src then dst else c
  { d with cols :=
      match d.cols with
      | .flat cs => .flat (cs.map f)
      | .multi cs => .multi (cs.map (fun p => (f p.1, p.2.map f))) }

/-- What one position tab renders besides errors: the subheader label,
whether the time-history and L90 charts were drawn, the column sets named
by the missing-columns warnings, and the table shown in full
(`st.dataframe(df_used, hide_index=True)`). -/
structure TabView where
  subheader : String
  timeHistory : Bool
  l90Chart : Bool
  warnings : List (List String)
  table : PDF
deriving DecidableEq, Repr

/-- The chart/table section of a position tab (lines 219-328) applied to the
chosen display table: each of the two chart blocks draws its chart when the
required columns are all present in the flattened header and otherwise
renders a warning naming `required_cols`; the table renders regardless. -/
def mkView (sub : String) (d : PDF) : TabView :=
  { subheader := sub
    timeHistory := hasRequired d
    l90Chart := hasRequired d
    warnings :=
      (if hasRequired d then [] else [requiredCols]) ++
      (if hasRequired d then [] else [requiredCols])
    table := d }

/-- Everything a position tab can render (lines 190-328): the log-not-found
error (`continue`), a per-position aggregation failure (`continue`), a raw
master-table failure (`continue`), or the charts-and-table view. -/
inductive TabOut where
  | logNotFound : String → TabOut
  | rawFail : String → String → TabOut
  | aggFail : String → String → TabOut
  | view : TabView → TabOut
deriving DecidableEq, Repr

/-- Rendering of one position tab for the uploaded file `uf` (lines
190-328): look the log up by the file's name; in the AGGREGATED state call
`as_interval` (an error skips the whole tab body), in the RAW state read
`_master`; reset the index and rename the time column to `"Timestamp"`;
then build the charts/table view. -/
def renderTab (s : ViewState) (period : String) (logs : List (String × Log))
    (uf : UploadFile) : TabOut :=
  match dictGet logs uf.name with
  | none => .logNotFound uf.name
  | some lg =>
    if s.apply_agg then
      match lg.asInterval period with
      | .error e => .aggFail uf.name e
      | .ok d =>
        .view (mkView "Integrated Survey Data" (renamePDF (resetIndexPDF d) (effIdx d) "Timestamp"))
    else
      match lg.master with
      | .error e => .rawFail uf.name e
      | .ok m =>
        .view (mkView "Raw Survey Data" (renamePDF (resetIndexPDF m) "Time" "Timestamp"))

/-- `zip(ui_tabs[1:], files)` (line 190): each position tab, labelled by a
key of the logs dict, is paired with the uploaded file at the same rank;
`zip` truncates at the shorter list. -/
def tabPairs (files : List UploadFile) : List (String × UploadFile) :=
  (posList files).zip files

/-- The rendered contents of all position tabs, in tab order. -/
def renderTabs (s : ViewState) (period : String) (files : List UploadFile) : List TabOut :=
  (tabPairs files).map (fun p => renderTab s period (ingest files).logs p.2)

/-! ### L90 distribution pipeline (lines 277-289) -/

/-- numpy/pandas `round(0)`: round half to even (banker's rounding). -/
def roundHalfEven (q : ℚ) : ℤ :=
  let f := ⌊q⌋
  let r := q - (f : ℚ)
  if r < 1/2 then f
  else if 1/2 < r then f + 1
  else if f % 2 = 0 then f else f + 1

/-- `df_plot["L90 A"].round(0)`: the rounded L90 series. -/
def l90Rounded (vals : List ℚ) : List ℤ := vals.map roundHalfEven

/-- The categorical bins of `value_counts().sort_index()`: the distinct
rounded values in ascending order. -/
def l90Bins (vals : List ℚ) : List ℤ :=
  List.insertionSort (· ≤ ·) (l90Rounded vals).dedup

/-- The counts per bin, in ascending bin order. -/
def l90Counts (vals : List ℚ) : List Nat :=
  (l90Bins vals).map (fun b => (l90Rounded vals).count b)

/-- `cumsum()` of a series. -/
def cumsum : List Nat → List Nat
  | [] => []
  | c :: cs => c :: (cumsum cs).map (fun x => c + x)

/-- `l90_cumsum / l90_cumsum.iloc[-1] * 100` (line 289): the cumulative
percentage curve; `none` models the `iloc[-1]` failure on an empty series. -/
def l90CumPct (vals : List ℚ) : Option (List ℚ) :=
  let c := cumsum (l90Counts vals)
  match c.getLast? with
  | none => none
  | some t => some (c.map (fun (x : Nat) => (x : ℚ) / (t : ℚ) * 100))

/-! ### Spec-side definition for claim C8 -/

/-- Follows the claim's words (C8): the set of required columns actually
missing from the flattened display table. -/
def specMissingSet (d : PDF) : List String :=
  requiredCols.filter (fun c => decide (c ∉ plotCols d))

/-! ### Helper lemmas -/

lemma bandWidth_le (cs : List (String × Option String)) : bandWidth cs ≤ cs.length := by
  have h := (List.dedup_sublist (rawBands cs)).length_le
  simpa [rawBands, bandWidth] using h

lemma bandWidth_pos (cs : List (String × Option String)) (h : cs ≠ []) :
    0 < bandWidth cs := by
  have hne : (rawBands cs).dedup ≠ [] := by
    simp [List.dedup_eq_nil, rawBands, h]
  exact List.length_pos.mpr hne

lemma map_ite_eq_self (l : List String) (x y : String) (h : x ∉ l) :
    l.map (fun c => if c = x then y else c) = l := by
  induction l with
  | nil => rfl
  | cons a t ih =>
    rw [List.map_cons, if_neg, ih (fun hm => h (List.mem_cons_of_mem a hm))]
    intro he
    subst he
    exact h (List.mem_cons_self _ _)

lemma miCols2_eq (df : PDF) (cs : List (String × Option String))
    (hidx : effIdx df ∉ bandLabels cs) :
    miCols2 df cs = "Period" :: bandLabels cs := by
  rw [miCols2, List.map_cons, if_pos rfl]
  congr 1
  exact map_ite_eq_self _ _ _ hidx

lemma pos_not_mem_miCols2 (df : PDF) (cs : List (String × Option String))
    (hpos : "Position" ∉ bandLabels cs) (hidx : effIdx df ∉ bandLabels cs) :
    "Position" ∉ miCols2 df cs := by
  rw [miCols2_eq df cs hidx]
  intro hmem
  rcases List.mem_cons.mp hmem with h | h
  · exact absurd h (by decide)
  · exact hpos h

lemma blockCols_eq (df : PDF) (cs : List (String × Option String))
    (hpos : "Position" ∉ bandLabels cs) (hidx : effIdx df ∉ bandLabels cs) :
    blockCols df cs = "Position" :: "Period" :: bandLabels cs := by
  rw [blockCols, if_neg (pos_not_mem_miCols2 df cs hpos hidx), miCols2_eq df cs hidx]

lemma blockRows_eq_spec (df : PDF) (cs : List (String × Option String)) (i : Nat)
    (pos : String) (hpos : "Position" ∉ bandLabels cs)
    (hidx : effIdx df ∉ bandLabels cs) :
    blockRows df cs i pos = specBlock df (bandWidth cs) i pos := by
  simp only [blockRows, specBlock]
  rw [if_neg (pos_not_mem_miCols2 df cs hpos hidx), List.map_zipWith]

/-! ### Claim C3: ViewState transitions -/

/-- C3: whenever the newly built period string differs from
`last_period_string`, the update stores the new string and (absent the
apply action) resets `apply_aggregation` to false; `apply_aggregation`
ends up true exactly when the apply button was pressed or it was already
true and the period did not change; and with no apply action and an
unchanged period the state is untouched — no other trigger changes it. -/
theorem viewstate_transitions (s : ViewState) (v : Int) (unit : String) (b : Bool) :
    (s.period_last ≠ buildPeriod v unit →
      (stepView s v unit b).period_last = buildPeriod v unit ∧
      (b = false → (stepView s v unit b).apply_agg = false)) ∧
    ((stepView s v unit b).apply_agg = true ↔
      (b = true ∨ (s.apply_agg = true ∧ s.period_last = buildPeriod v unit))) ∧
    (b = false → s.period_last = buildPeriod v unit → stepView s v unit b = s) := by
  by_cases hp : s.period_last = buildPeriod v unit <;> cases b <;>
    simp [stepView, hp]

/-- Witness for C3: from the state `(apply_agg := true, period_last :=
"15min")`, changing the period value to 10 without pressing apply yields
`period_last = "10min"` and `apply_agg = false`. -/
theorem viewstate_transitions_witness :
    (stepView ⟨true, "15min"⟩ 10 "minute(s)" false).period_last = buildPeriod 10 "minute(s)" ∧
    (stepView ⟨true, "15min"⟩ 10 "minute(s)" false).apply_agg = false := by
  have h := viewstate_transitions ⟨true, "15min"⟩ 10 "minute(s)" false
  exact ⟨(h.1 (by decide)).1, (h.1 (by decide)).2 rfl⟩

/-! ### Claim C10: absent result and empty concatenation -/

/-- C10: `spectra_to_rows` returns an absent result exactly for an absent
input; and on a present two-level table, when the position list is empty
(or the table were narrower than one full block), the block list is empty
and the final `pd.concat` raises instead of returning absent or empty. -/
theorem spectra_absent_and_raises :
    (∀ ps, spectra_to_rows none ps = SpectraResult.absent) ∧
    (∀ df ps, spectra_to_rows (some df) ps ≠ SpectraResult.absent) ∧
    (∀ df cs ps, df.cols = Cols.multi cs → (ps = [] ∨ cs.length < bandWidth cs) →
      spectra_to_rows (some df) ps = SpectraResult.raises) := by
  refine ⟨fun ps => rfl, fun df ps => ?_, fun df cs ps hc h => ?_⟩
  · cases hdf : df.cols with
    | flat cs => simp [spectra_to_rows, hdf]
    | multi cs =>
      simp only [spectra_to_rows, hdf]
      split <;> simp
  · rcases h with h | h
    · subst h
      simp [spectra_to_rows, hc, miLoop]
    · exact absurd h (Nat.not_lt.mpr (bandWidth_le cs))

/-- Witness table for C10. -/
def c10df : PDF :=
  ⟨some "Period", [Val.str "Daytime"], Cols.multi [("P1", some "63")], [[Val.num 1]]⟩

/-- Witness for C10: on a present two-level table with an empty position
list, the function raises. -/
theorem spectra_absent_and_raises_witness :
    spectra_to_rows (some c10df) [] = SpectraResult.raises :=
  spectra_absent_and_raises.2.2 c10df [("P1", some "63")] [] rfl (Or.inl rfl)

/-! ### Claim C4: flat reshape is not idempotent -/

/-- Concrete flat spectra table for C4: one period row, one band column. -/
def c4df : PDF :=
  ⟨some "Period", [Val.str "Daytime"], Cols.flat ["63"], [[Val.num 50]]⟩

/-- The result of reshaping `c4df` once. -/
def c4once : PDF :=
  ⟨none, [Val.num 0], Cols.flat ["Position", "Period", "63"],
   [[Val.str "A", Val.str "Daytime", Val.num 50]]⟩

/-- C4 counterexample: reshaping the flat table `c4df` once yields `c4once`,
but reshaping a second time does NOT leave it unchanged — the second
`reset_index` prepends the row-number index as a duplicate `"Period"`
column, so the claimed idempotence fails. -/
theorem flat_reshape_not_idempotent :
    spectra_to_rows (some c4df) ["A"] = SpectraResult.ok c4once ∧
    spectra_to_rows (some c4once) ["A"] ≠ SpectraResult.ok c4once := by decide

/-- The flat column list of a DataFrame (junk on a two-level header). -/
def flatColsOf (d : PDF) : List String :=
  match d.cols with
  | .flat cs => cs
  | .multi _ => []

lemma flatTidy_indexName (df : PDF) (cs ps : List String) :
    (flatTidy df cs ps).indexName = none := by
  rw [flatTidy]
  split <;> rfl

lemma flatTidy_cols (df : PDF) (cs ps : List String) :
    (flatTidy df cs ps).cols = Cols.flat (flatColsOf (flatTidy df cs ps)) := by
  rw [flatTidy]
  split <;> rfl

lemma flatTidy_pos_mem (df : PDF) (cs ps : List String) :
    "Position" ∈ flatColsOf (flatTidy df cs ps) := by
  rw [flatTidy]
  split
  · next h => simpa [flatColsOf] using h
  · simp [flatColsOf]

lemma flatTidy_index (df : PDF) (cs ps : List String) :
    (flatTidy df cs ps).index = rangeIdx (flatTidy df cs ps).rows.length := by
  rw [flatTidy]
  split <;> simp

lemma mem_flatTidy_cols (df : PDF) (cs ps : List String) (c : String)
    (h : c ∈ flatColsOf (flatTidy df cs ps)) :
    c = "Position" ∨ c = "Period" ∨ c ∈ cs := by
  have hcols1 : ∀ d ∈ (effIdx df :: cs).map
      (fun x => if x = effIdx df then "Period" else x), d = "Period" ∨ d ∈ cs := by
    intro d hd
    rcases List.mem_map.mp hd with ⟨a, ha, hda⟩
    by_cases hae : a = effIdx df
    · left; rw [← hda, if_pos hae]
    · right
      rw [← hda, if_neg hae]
      rcases List.mem_cons.mp ha with h1 | h1
      · exact absurd h1 hae
      · exact h1
  rw [flatTidy] at h
  split at h
  · simp only [flatColsOf] at h
    rcases hcols1 c h with h1 | h1
    · exact Or.inr (Or.inl h1)
    · exact Or.inr (Or.inr h1)
  · simp only [flatColsOf] at h
    rcases List.mem_cons.mp h with h1 | h1
    · exact Or.inl h1
    · rcases hcols1 c h1 with h2 | h2
      · exact Or.inr (Or.inl h2)
      · exact Or.inr (Or.inr h2)

lemma rangeIdx_length (n : Nat) : (rangeIdx n).length = n := by
  rw [rangeIdx, List.length_map, List.length_range]

lemma spectra_to_rows_flat (df : PDF) (cs ps : List String)
    (hc : df.cols = Cols.flat cs) :
    spectra_to_rows (some df) ps = SpectraResult.ok (flatTidy df cs ps) := by
  obtain ⟨nm, idx, c, rws⟩ := df
  have hc2 : c = Cols.flat cs := hc
  subst hc2
  rfl

lemma flatTidy_of_pos_mem (d : PDF) (cs ps : List String)
    (hnm : effIdx d ∉ cs) (hpos : "Position" ∈ cs) :
    flatTidy d cs ps =
      { indexName := none
        index := rangeIdx (List.zipWith (fun iv r => iv :: r) d.index d.rows).length
        cols := Cols.flat ("Period" :: cs)
        rows := List.zipWith (fun iv r => iv :: r) d.index d.rows } := by
  have hcols1 : (effIdx d :: cs).map (fun c => if c = effIdx d then "Period" else c)
      = "Period" :: cs := by
    rw [List.map_cons, if_pos rfl]
    congr 1
    exact map_ite_eq_self _ _ _ hnm
  simp only [flatTidy]
  rw [hcols1, if_pos (List.mem_cons_of_mem _ hpos)]

/-- C4 amended: reshaping the already-tidied flat table is not the
identity — the second application keeps every existing column and row
value and duplicates no row, but prepends the reset row-number index as an
additional column renamed `"Period"`. -/
theorem flat_reshape_second_application (df : PDF) (cs ps : List String)
    (hc : df.cols = Cols.flat cs) (hidx : "index" ∉ cs) :
    spectra_to_rows (some df) ps = SpectraResult.ok (flatTidy df cs ps) ∧
    spectra_to_rows (some (flatTidy df cs ps)) ps =
      SpectraResult.ok
        { indexName := none
          index := rangeIdx (flatTidy df cs ps).rows.length
          cols := Cols.flat ("Period" :: flatColsOf (flatTidy df cs ps))
          rows := List.zipWith (fun iv r => iv :: r)
            (rangeIdx (flatTidy df cs ps).rows.length) (flatTidy df cs ps).rows } := by
  constructor
  · exact spectra_to_rows_flat df cs ps hc
  · have hnotmem : "index" ∉ flatColsOf (flatTidy df cs ps) := by
      intro hmem
      rcases mem_flatTidy_cols df cs ps "index" hmem with h | h | h
      · exact absurd h (by decide)
      · exact absurd h (by decide)
      · exact hidx h
    have hme : effIdx (flatTidy df cs ps) = "index" := by
      rw [effIdx, flatTidy_indexName df cs ps]
      rfl
    have happ := flatTidy_of_pos_mem (flatTidy df cs ps)
      (flatColsOf (flatTidy df cs ps)) ps (by rw [hme]; exact hnotmem)
      (flatTidy_pos_mem df cs ps)
    rw [spectra_to_rows_flat (flatTidy df cs ps) (flatColsOf (flatTidy df cs ps)) ps
      (flatTidy_cols df cs ps), happ, flatTidy_index df cs ps]
    simp [List.length_zipWith, rangeIdx_length]

/-! ### Claim C8: missing required columns -/

/-- Concrete raw display table for C8, missing only `"Lmax A"`. -/
def c8df : PDF :=
  ⟨some "Time", [Val.num 0], Cols.flat ["Timestamp", "Leq A", "L90 A"],
   [[Val.num 0, Val.num 50, Val.num 40]]⟩

/-- C8 counterexample: on a table whose only missing required column is
`"Lmax A"`, the two rendered warnings name the full required set
`{Leq A, L90 A, Lmax A}` — neither names the missing set `["Lmax A"]`, so
the claim that the warning names the missing set fails. -/
theorem warning_names_required_set_cex :
    specMissingSet c8df = ["Lmax A"] ∧
    (mkView "Raw Survey Data" c8df).warnings = [requiredCols, requiredCols] ∧
    specMissingSet c8df ∉ (mkView "Raw Survey Data" c8df).warnings := by decide

/-- C8 amended: whenever any required column is missing from the flattened
display table, each of the two chart sections renders a warning naming the
full required column set (not the missing subset), both charts are
skipped, and the full data table still renders. -/
theorem missing_cols_warning_skips_charts (sub : String) (d : PDF)
    (h : specMissingSet d ≠ []) :
    mkView sub d = { subheader := sub, timeHistory := false, l90Chart := false,
                     warnings := [requiredCols, requiredCols], table := d } := by
  have hb : hasRequired d = false := by
    by_contra hb
    rw [Bool.not_eq_false] at hb
    have hall : ∀ c ∈ requiredCols, c ∈ plotCols d := by
      simpa [hasRequired, List.all_eq_true] using hb
    have hnil : specMissingSet d = [] := by
      rw [specMissingSet, List.filter_eq_nil_iff]
      intro c hc
      simp [hall c hc]
    exact h hnil
  simp [mkView, hb]

/-- Witness for C8's amended theorem at the concrete table `c8df`. -/
theorem missing_cols_warning_skips_charts_witness :
    mkView "Raw Survey Data" c8df =
      { subheader := "Raw Survey Data", timeHistory := false, l90Chart := false,
        warnings := [requiredCols, requiredCols], table := c8df } :=
  missing_cols_warning_skips_charts "Raw Survey Data" c8df (by decide)

/-! ### Claim C6: temp files are always removed -/

lemma processFile_events (st : IngestSt) (f : UploadFile) :
    (processFile st f).events =
      st.events ++ [Ev.create st.nextTmp, Ev.unlink st.nextTmp] := by
  cases hf : f.parse <;> simp [processFile, hf]

lemma processFile_nextTmp (st : IngestSt) (f : UploadFile) :
    (processFile st f).nextTmp = st.nextTmp + 1 := by
  cases hf : f.parse <;> simp [processFile, hf]

lemma foldl_events (files : List UploadFile) :
    ∀ st : IngestSt, (files.foldl processFile st).events =
      st.events ++ (List.range' st.nextTmp files.length).flatMap
        (fun n => [Ev.create n, Ev.unlink n]) := by
  induction files with
  | nil => intro st; simp
  | cons f rest ih =>
    intro st
    rw [List.foldl_cons, ih, processFile_events, processFile_nextTmp,
      List.length_cons, List.range'_succ, List.flatMap_cons]
    simp

/-- C6: over any upload batch, whatever mix of parse successes and
failures, the temp-file event trace of the ingestion loop is exactly
`create 0, unlink 0, create 1, unlink 1, …`: every uniquely named
temporary file is removed right after the log constructor runs on it, on
both the success and the failure path. -/
theorem ingest_temp_events (files : List UploadFile) :
    (ingest files).events =
      (List.range files.length).flatMap (fun n => [Ev.create n, Ev.unlink n]) := by
  rw [ingest, foldl_events files]
  simp [List.range_eq_range']

/-! ### Claim C9: one position tab per uploaded file -/

lemma dictInsert_fresh (d : List (String × Log)) (k : String) (v : Log)
    (h : k ∉ d.map Prod.fst) : dictInsert d k v = d ++ [(k, v)] := by
  rw [dictInsert, if_neg]
  intro hany
  rw [List.any_eq_true] at hany
  obtain ⟨p, hp, hbeq⟩ := hany
  exact h (List.mem_map.mpr ⟨p, hp, by simpa using hbeq⟩)

lemma processFile_logs_ok (st : IngestSt) (f : UploadFile) (lg : Log)
    (h : f.parse = Except.ok lg) :
    (processFile st f).logs = dictInsert st.logs f.name lg := by
  simp [processFile, h]

lemma foldl_keys (files : List UploadFile) :
    ∀ st : IngestSt, (∀ f ∈ files, ∃ lg, f.parse = Except.ok lg) →
      (∀ f ∈ files, f.name ∉ st.logs.map Prod.fst) →
      (files.map (fun f => f.name)).Nodup →
      (files.foldl processFile st).logs.map Prod.fst =
        st.logs.map Prod.fst ++ files.map (fun f => f.name) := by
  induction files with
  | nil => intro st _ _ _; simp
  | cons f rest ih =>
    intro st h1 h2 h3
    obtain ⟨lg, hlg⟩ := h1 f (List.mem_cons_self _ _)
    have hkeys : (processFile st f).logs.map Prod.fst =
        st.logs.map Prod.fst ++ [f.name] := by
      rw [processFile_logs_ok st f lg hlg,
        dictInsert_fresh _ _ _ (h2 f (List.mem_cons_self _ _))]
      simp
    have hrest := ih (processFile st f)
      (fun g hg => h1 g (List.mem_cons_of_mem _ hg))
      (by
        intro g hg hmem
        rw [hkeys] at hmem
        rcases List.mem_append.mp hmem with hm | hm
        · exact h2 g (List.mem_cons_of_mem _ hg) hm
        · have hgf : g.name = f.name := by simpa using hm
          have hfn : f.name ∉ rest.map (fun f => f.name) :=
            (List.nodup_cons.mp h3).1
          exact hfn (hgf ▸ List.mem_map_of_mem _ hg))
      h3.of_cons
    rw [List.foldl_cons, hrest, hkeys]
    simp

/-- C9: whenever every uploaded file parses successfully and the display
names are distinct, the rendered tab labels are exactly one `Summary` tab
followed by one position tab per uploaded file in upload order, so the
number of position tabs equals the number of uploaded files. -/
theorem tabs_one_per_file (files : List UploadFile)
    (h1 : ∀ f ∈ files, ∃ lg, f.parse = Except.ok lg)
    (h2 : (files.map (fun f => f.name)).Nodup) :
    uiTabs files = "Summary" :: files.map (fun f => f.name) ∧
    (posList files).length = files.length := by
  have hkeys := foldl_keys files ⟨[], [], [], 0⟩ h1 (by simp) h2
  simp only [List.map_nil, List.nil_append] at hkeys
  have hpos : posList files = files.map (fun f => f.name) := hkeys
  refine ⟨?_, ?_⟩
  · rw [uiTabs, hpos]
  · rw [hpos, List.length_map]

/-- A minimal master table for witness logs. -/
def tinyMaster : PDF := ⟨some "Time", [], Cols.flat [], []⟩

/-- Witness log for C9. -/
def c9log : Log := ⟨Except.ok tinyMaster, fun _ => Except.error "na"⟩

/-- Witness file for C9: a file that parses successfully. -/
def c9file : UploadFile := ⟨"a.csv", Except.ok c9log⟩

/-- Witness for C9: one successfully parsed file gives exactly the Summary
tab plus one position tab. -/
theorem tabs_one_per_file_witness :
    uiTabs [c9file] = "Summary" :: [c9file].map (fun f => f.name) ∧
    (posList [c9file]).length = [c9file].length :=
  tabs_one_per_file [c9file]
    (by
      intro f hf
      rw [List.mem_singleton] at hf
      subst hf
      exact ⟨c9log, rfl⟩)
    (by simp)

/-! ### Claim C7: per-position aggregation failure is scoped -/

/-- C7: in the AGGREGATED state, if `as_interval` fails for the log of the
file paired with tab `i`, that tab renders exactly the file-scoped
aggregation error — no charts and no table — and every tab's output is
still the pointwise render of its own pair, so the failure affects that
position only and nothing falls back to the raw master table. -/
theorem agg_failure_scoped (s : ViewState) (period : String)
    (files : List UploadFile) (i : Nat) (lbl : String) (uf : UploadFile)
    (lg : Log) (e : String)
    (hagg : s.apply_agg = true)
    (hp : (tabPairs files)[i]? = some (lbl, uf))
    (hl : dictGet (ingest files).logs uf.name = some lg)
    (he : lg.asInterval period = Except.error e) :
    (renderTabs s period files)[i]? = some (TabOut.aggFail uf.name e) ∧
    ∀ (j : Nat), (renderTabs s period files)[j]? =
      ((tabPairs files)[j]?).map
        (fun (p : String × UploadFile) => renderTab s period (ingest files).logs p.2) := by
  constructor
  · rw [renderTabs, List.getElem?_map, hp]
    simp [renderTab, hl, hagg, he]
  · intro j
    rw [renderTabs, List.getElem?_map]

/-- Witness log for C7 whose `as_interval` always fails. -/
def c7log : Log := ⟨Except.ok tinyMaster, fun _ => Except.error "period too small"⟩

/-- Witness file for C7. -/
def c7file : UploadFile := ⟨"a.csv", Except.ok c7log⟩

/-- Witness for C7: with aggregation applied and a failing `as_interval`,
the position tab renders the aggregation error. -/
theorem agg_failure_scoped_witness :
    (renderTabs ⟨true, "15min"⟩ "15min" [c7file])[0]? =
      some (TabOut.aggFail "a.csv" "period too small") :=
  (agg_failure_scoped ⟨true, "15min"⟩ "15min" [c7file] 0 "a.csv" c7file c7log
    "period too small" rfl rfl rfl rfl).1

/-! ### Claim C1: two-level reshape block structure -/

lemma miLoop_eq (df : PDF) (cs : List (String × Option String))
    (hB : 0 < bandWidth cs) :
    ∀ (ps : List String) (i : Nat),
      miLoop df cs i ps =
        ((ps.take (cs.length / bandWidth cs - i)).enumFrom i).map
          (fun jp => blockRows df cs jp.1 jp.2) := by
  intro ps
  induction ps with
  | nil => intro i; simp [miLoop]
  | cons p rest ih =>
    intro i
    rw [miLoop]
    by_cases hbr : (i + 1) * bandWidth cs > cs.length
    · rw [if_pos hbr]
      have hK : cs.length / bandWidth cs - i = 0 := by
        have h2 : ¬ (i + 1 ≤ cs.length / bandWidth cs) := by
          rw [Nat.le_div_iff_mul_le hB]
          omega
        omega
      rw [hK]
      simp
    · rw [if_neg hbr]
      have hi : i + 1 ≤ cs.length / bandWidth cs := by
        rw [Nat.le_div_iff_mul_le hB]
        omega
      have hK : cs.length / bandWidth cs - i =
          (cs.length / bandWidth cs - (i + 1)) + 1 := by omega
      rw [hK, List.take_succ_cons, List.enumFrom_cons, List.map_cons, ih (i + 1)]

lemma spectra_to_rows_multi (df : PDF) (cs : List (String × Option String))
    (ps : List String) (hc : df.cols = Cols.multi cs) :
    spectra_to_rows (some df) ps =
      (if miLoop df cs 0 ps = [] then SpectraResult.raises
       else SpectraResult.ok
        { indexName := none
          index := rangeIdx (miLoop df cs 0 ps).flatten.length
          cols := Cols.flat (blockCols df cs)
          rows := (miLoop df cs 0 ps).flatten }) := by
  obtain ⟨nm, idx, c, rws⟩ := df
  have hc2 : c = Cols.multi cs := hc
  subst hc2
  rfl

/-- The general shape of the two-level branch: under the natural
assumptions on labels, the result is the concatenation of the blocks of
the first `ncols / B` positions. -/
lemma spectra_multi_general (df : PDF) (cs : List (String × Option String))
    (ps : List String) (hc : df.cols = Cols.multi cs) (hne : cs ≠ [])
    (hpos : "Position" ∉ bandLabels cs) (hidx : effIdx df ∉ bandLabels cs)
    (hps : ps ≠ []) :
    spectra_to_rows (some df) ps =
      SpectraResult.ok
        { indexName := none
          index := rangeIdx (specRows df (bandWidth cs) ps
            (cs.length / bandWidth cs)).length
          cols := Cols.flat ("Position" :: "Period" :: bandLabels cs)
          rows := specRows df (bandWidth cs) ps (cs.length / bandWidth cs) } := by
  have hB := bandWidth_pos cs hne
  have hBle := bandWidth_le cs
  have hK1 : 1 ≤ cs.length / bandWidth cs := by
    rw [Nat.le_div_iff_mul_le hB]
    omega
  have hloop := miLoop_eq df cs hB ps 0
  rw [Nat.sub_zero] at hloop
  have hflat : (miLoop df cs 0 ps).flatten =
      specRows df (bandWidth cs) ps (cs.length / bandWidth cs) := by
    rw [hloop, specRows]
    have henum : (ps.take (cs.length / bandWidth cs)).enumFrom 0 =
        (ps.take (cs.length / bandWidth cs)).enum := rfl
    rw [henum]
    congr 1
    exact List.map_congr_left
      (fun jp _ => blockRows_eq_spec df cs jp.1 jp.2 hpos hidx)
  have hblocks : miLoop df cs 0 ps ≠ [] := by
    rw [hloop]
    obtain ⟨x, xs, hx⟩ := List.exists_cons_of_ne_nil hps
    obtain ⟨m, hm⟩ : ∃ m, cs.length / bandWidth cs = m + 1 :=
      ⟨cs.length / bandWidth cs - 1, by omega⟩
    rw [hx, hm, List.take_succ_cons]
    simp
  rw [spectra_to_rows_multi df cs ps hc, if_neg hblocks, hflat,
    blockCols_eq df cs hpos hidx]

/-- C1: for a two-level spectra table with `B` distinct inner band labels
and `P` position names: if the table has exactly `P*B` columns, the result
is the concatenation of the `P` per-position blocks, in position order —
each block the position's contiguous `B`-column slice, with the plain band
labels as columns, the row index moved into `Period`, every row tagged
with the position's name, and row order preserved; if the table has fewer
than `P*B` columns, slicing stops at the last complete block and the
trailing incomplete positions are absent, not padded. -/
theorem spectra_two_level_blocks (df : PDF) (cs : List (String × Option String))
    (ps : List String) (hc : df.cols = Cols.multi cs) (hne : cs ≠ [])
    (hpos : "Position" ∉ bandLabels cs) (hidx : effIdx df ∉ bandLabels cs) :
    (cs.length = ps.length * bandWidth cs →
      spectra_to_rows (some df) ps = SpectraResult.ok
        { indexName := none
          index := rangeIdx (specRows df (bandWidth cs) ps ps.length).length
          cols := Cols.flat ("Position" :: "Period" :: bandLabels cs)
          rows := specRows df (bandWidth cs) ps ps.length }) ∧
    (cs.length < ps.length * bandWidth cs →
      spectra_to_rows (some df) ps = SpectraResult.ok
        { indexName := none
          index := rangeIdx (specRows df (bandWidth cs) ps
            (cs.length / bandWidth cs)).length
          cols := Cols.flat ("Position" :: "Period" :: bandLabels cs)
          rows := specRows df (bandWidth cs) ps (cs.length / bandWidth cs) }) := by
  have hB := bandWidth_pos cs hne
  have hBle := bandWidth_le cs
  have hcpos : 0 < cs.length := List.length_pos.mpr hne
  constructor
  · intro hcl
    have hKP : cs.length / bandWidth cs = ps.length := by
      rw [hcl, Nat.mul_div_cancel _ hB]
    have hps : ps ≠ [] := by
      intro hnil
      rw [hnil] at hcl
      simp only [List.length_nil, Nat.zero_mul] at hcl
      omega
    rw [spectra_multi_general df cs ps hc hne hpos hidx hps, hKP]
  · intro hcl
    have hps : ps ≠ [] := by
      intro hnil
      rw [hnil] at hcl
      simp only [List.length_nil, Nat.zero_mul] at hcl
      omega
    exact spectra_multi_general df cs ps hc hne hpos hidx hps

/-- Witness table for C1: 2 positions × 2 bands, 2 period rows. -/
def c1cols : List (String × Option String) :=
  [("P1", some "63"), ("P1", some "125"), ("P2", some "63"), ("P2", some "125")]

/-- Witness table for C1. -/
def c1df : PDF :=
  ⟨some "Period", [Val.str "Daytime", Val.str "Night-time"], Cols.multi c1cols,
   [[Val.num 1, Val.num 2, Val.num 3, Val.num 4],
    [Val.num 5, Val.num 6, Val.num 7, Val.num 8]]⟩

/-- Witness for C1 at the exact-width table `c1df` with positions
`["A", "B"]`. -/
theorem spectra_two_level_blocks_witness :
    spectra_to_rows (some c1df) ["A", "B"] = SpectraResult.ok
      { indexName := none
        index := rangeIdx (specRows c1df (bandWidth c1cols) ["A", "B"] 2).length
        cols := Cols.flat ("Position" :: "Period" :: bandLabels c1cols)
        rows := specRows c1df (bandWidth c1cols) ["A", "B"] 2 } :=
  (spectra_two_level_blocks c1df c1cols ["A", "B"] rfl (by decide) (by decide)
    (by decide)).1 (by decide)

/-! ### Claim C5: the L90 cumulative curve ends at 100 -/

lemma getLast?_cons_ne {α : Type} (a : α) (l : List α) (h : l ≠ []) :
    (a :: l).getLast? = l.getLast? := by
  cases l with
  | nil => exact absurd rfl h
  | cons b t => exact List.getLast?_cons_cons

lemma cumsum_ne_nil (l : List Nat) (h : l ≠ []) : cumsum l ≠ [] := by
  cases l with
  | nil => exact absurd rfl h
  | cons c cs => simp [cumsum]

lemma cumsum_getLast (l : List Nat) (h : l ≠ []) :
    (cumsum l).getLast? = some l.sum := by
  induction l with
  | nil => exact absurd rfl h
  | cons c cs ih =>
    cases cs with
    | nil => simp [cumsum]
    | cons d ds =>
      have h1 : cumsum (c :: d :: ds) = c :: (cumsum (d :: ds)).map (fun x => c + x) := rfl
      have h2 : (cumsum (d :: ds)).map (fun x => c + x) ≠ [] := by
        rw [Ne, List.map_eq_nil_iff]
        exact cumsum_ne_nil _ (by simp)
      rw [h1, getLast?_cons_ne _ _ h2, List.getLast?_map, ih (by simp)]
      simp

/-- C5: for every non-empty L90 series, the pipeline — round each value to
the nearest integer, count per unique rounded bin sorted ascending, take
the cumulative sum and normalise by the final cumulative count times 100 —
produces a curve whose last value is exactly 100. -/
theorem l90_cumulative_last_eq_100 (vals : List ℚ) (h : vals ≠ []) :
    ∃ l, l90CumPct vals = some l ∧ l.getLast? = some 100 := by
  have hperm : List.Perm (l90Bins vals) (l90Rounded vals).dedup :=
    List.perm_insertionSort _ _
  have hrne : l90Rounded vals ≠ [] := by
    rw [l90Rounded, Ne, List.map_eq_nil_iff]
    exact h
  have hbins : l90Bins vals ≠ [] := by
    intro hnil
    rw [hnil] at hperm
    exact hrne (List.dedup_eq_nil _ |>.mp (hperm.symm.eq_nil))
  have hcounts : l90Counts vals ≠ [] := by
    rw [l90Counts, Ne, List.map_eq_nil_iff]
    exact hbins
  have hsum : (l90Counts vals).sum = vals.length := by
    have hmap : List.Perm (l90Counts vals)
        ((l90Rounded vals).dedup.map fun b => (l90Rounded vals).count b) :=
      hperm.map _
    rw [hmap.sum_eq, List.sum_map_count_dedup_eq_length, l90Rounded,
      List.length_map]
  have hlast := cumsum_getLast (l90Counts vals) hcounts
  have hlen : ((vals.length : ℚ)) ≠ 0 := by
    rw [Ne, Nat.cast_eq_zero, List.length_eq_zero]
    exact h
  refine ⟨(cumsum (l90Counts vals)).map
    (fun (x : Nat) => (x : ℚ) / ((vals.length : Nat) : ℚ) * 100), ?_, ?_⟩
  · rw [l90CumPct]
    simp only [hlast, hsum]
  · rw [List.getLast?_map, hlast, hsum]
    simp [div_self hlen]

/-- Witness for C5 at the series `[50, 50, 51]`. -/
theorem l90_cumulative_last_eq_100_witness :
    ∃ l, l90CumPct [(50 : ℚ), 50, 51] = some l ∧ l.getLast? = some 100 :=
  l90_cumulative_last_eq_100 [50, 50, 51] (by decide)

/-! ### Claim C2: a parse failure misaligns the position tabs -/

/-- The master table of the successfully parsed file in the C2 scenario. -/
def c2master : PDF :=
  ⟨some "Time", [Val.num 0], Cols.flat ["Leq A", "L90 A", "Lmax A"],
   [[Val.num 50, Val.num 40, Val.num 60]]⟩

/-- The log of the successfully parsed file in the C2 scenario. -/
def c2log : Log := ⟨Except.ok c2master, fun _ => Except.error "na"⟩

/-- An uploaded file whose CSV fails to parse. -/
def c2bad : UploadFile := ⟨"bad.csv", Except.error "parse error"⟩

/-- An uploaded file that parses successfully. -/
def c2good : UploadFile := ⟨"good.csv", Except.ok c2log⟩

/-- C2 (code bug): with the batch `[bad.csv (fails), good.csv (parses)]`,
the failed file does get a visible error and is excluded from the logs dict
and the tab-label list — but because the tab loop zips the tabs (built from
the parsed logs) with ALL uploaded files, the single position tab, labelled
`good.csv`, is paired with `bad.csv` and renders only a "log not found"
error; `good.csv`'s own data is rendered in no tab, contradicting the
claim that every successfully parsed file's tab shows its own data. -/
theorem tab_zip_misalignment_bug :
    posList [c2bad, c2good] = ["good.csv"] ∧
    (ingest [c2bad, c2good]).errors = [loadErrMsg "bad.csv" "parse error"] ∧
    renderTabs ⟨false, "15min"⟩ "15min" [c2bad, c2good] =
      [TabOut.logNotFound "bad.csv"] := by decide

/-- Witness for C4's amended theorem at the concrete table `c4df`. -/
theorem flat_reshape_second_application_witness :
    spectra_to_rows (some (flatTidy c4df ["63"] ["A"])) ["A"] =
      SpectraResult.ok
        { indexName := none
          index := rangeIdx (flatTidy c4df ["63"] ["A"]).rows.length
          cols := Cols.flat ("Period" :: flatColsOf (flatTidy c4df ["63"] ["A"]))
          rows := List.zipWith (fun iv r => iv :: r)
            (rangeIdx (flatTidy c4df ["63"] ["A"]).rows.length)
            (flatTidy c4df ["63"] ["A"]).rows } :=
  (flat_reshape_second_application c4df ["63"] ["A"] rfl (by decide)).2

end PyNSApp
